import Mathlib

/-!
Verification development for the DDNet player-presence tracker bot.

The definitions below are a shallow embedding of the Python sources
(`main.py`, `api.py`, `tracker.py`, `image_utils.py`): Python dicts are
modelled as insertion-ordered association lists, the Discord sink is
modelled by outcome functions supplied per tick, and the per-tick body of
`check_players_loop` is the function `tick`.
-/

/-- A connected client as it appears in a server record
(`api.find_player` reads `name`; `main.send_grouped_notification` reads
`skin` and `score`). -/
structure Client where
  name : String
  skin : String
  score : Int
deriving DecidableEq

/-- One server record of a snapshot: its address list and client list
(the metadata fields read only for display are passed separately where
needed). -/
structure ServerRecord where
  addresses : List String
  clients : List Client
deriving DecidableEq

/-- One poll's full directory listing (`servers_data`). -/
structure Snapshot where
  servers : List ServerRecord
deriving DecidableEq

/-- One element of the list returned by `api.find_player`:
`{'player': client, 'server': server}`. -/
structure FoundInstance where
  player : Client
  server : ServerRecord
deriving DecidableEq

/-- Python `str.lower()` (names here are ASCII, where it agrees with
`Char.toLower` mapped over the characters). -/
def strLower (s : String) : String := String.mk (s.data.map Char.toLower)

/-- Code-point lexicographic strict order on character lists, as Python
compares strings. -/
def strLtB : List Char → List Char → Bool
  | [], [] => false
  | [], _ :: _ => true
  | _ :: _, [] => false
  | a :: as, b :: bs => if a < b then true else if b < a then false else strLtB as bs

/-- The non-strict order Python's `sorted` arranges strings by. -/
def pyLe (a b : String) : Bool := !strLtB b.data a.data

/-- Model of `DDNetAPI.find_player` (api.py): scan every server's client list for a
case-insensitive name match; every match is collected in order. -/
def find_player (servers : Snapshot) (player_name : String) : List FoundInstance :=
  servers.servers.foldr
    (fun server acc =>
      ((server.clients.filter
        (fun c => strLower c.name == strLower player_name)).map
        (fun c => FoundInstance.mk c server)) ++ acc)
    []

/-- Model of `get_server_key` (main.py lines 42-47): `"unknown"` for an empty list,
otherwise the first element of the sorted address list. -/
def get_server_key (addr_list : List String) : String :=
  if addr_list.isEmpty then "unknown"
  else (List.insertionSort (fun a b => pyLe a b = true) addr_list).headD "unknown"

/-! ### Python dict model: insertion-ordered association lists -/

/-- Python dict lookup `d.get(k)`. -/
def dictGet (d : List (String × α)) (k : String) : Option α :=
  (d.find? (fun kv => kv.1 == k)).map (·.2)

/-- Python dict lookup `d.get(k, v0)` with a default. -/
def dictGetD (d : List (String × α)) (k : String) (v0 : α) : α :=
  (dictGet d k).getD v0

/-- Python dict assignment `d[k] = v`: replace in place when the key exists,
append otherwise. -/
def dictSet (d : List (String × α)) (k : String) (v : α) : List (String × α) :=
  if (dictGet d k).isSome then
    d.map (fun kv => if kv.1 == k then (kv.1, v) else kv)
  else d ++ [(k, v)]

/-- The `d.setdefault(k, []).append(x)` pattern of main.py lines 77-79. -/
def dictAppend (d : List (String × List α)) (k : String) (x : α) :
    List (String × List α) :=
  if (dictGet d k).isSome then
    d.map (fun kv => if kv.1 == k then (kv.1, kv.2 ++ [x]) else kv)
  else d ++ [(k, [x])]

/-- Python dict deletion `del d[k]`. -/
def dictErase (d : List (String × α)) (k : String) : List (String × α) :=
  d.filter (fun kv => kv.1 != k)

/-- Python dict key listing `list(d.keys())`. -/
def dictKeys (d : List (String × α)) : List String :=
  d.map (·.1)

/-- Python `set(a) == set(b)` on lists of names. -/
def listSetEq (a b : List String) : Bool :=
  a.all (fun x => b.contains x) && b.all (fun x => a.contains x)

/-! ### The per-tick state machine of `check_players_loop` -/

/-- One player entry of `current_state` (main.py lines 79-83):
`{'name': ..., 'info': instances[0]['player'], 'server': instances[0]['server']}`. -/
structure PlayerEntry where
  name : String
  info : Client
  server : ServerRecord
deriving DecidableEq

/-- Step of main.py lines 72-83: for each tracked player take the FIRST
found instance and append the entry to the group keyed by that instance's
raw first address. -/
def buildCurrentState (snap : Snapshot) (tracked : List String) :
    List (String × List PlayerEntry) :=
  tracked.foldl
    (fun acc player_name =>
      match find_player snap player_name with
      | [] => acc
      | inst :: _ =>
        dictAppend acc (inst.server.addresses.headD "")
          ⟨player_name, inst.player, inst.server⟩)
    []

/-- One iteration of the re-keying loop of main.py lines 122-126: skip an
empty group, otherwise assign the group under `get_server_key` of its
first entry's full address list. -/
def stableStep (acc : List (String × List PlayerEntry))
    (kv : String × List PlayerEntry) : List (String × List PlayerEntry) :=
  match kv.2 with
  | [] => acc
  | p :: _ => dictSet acc (get_server_key p.server.addresses) kv.2

/-- Step of main.py lines 120-126: re-key every raw group by
`get_server_key` of its first entry's full address list, assigning into a
fresh dict (a later group with the same stable key overwrites an earlier
one). -/
def stableCurrentState (raw : List (String × List PlayerEntry)) :
    List (String × List PlayerEntry) :=
  raw.foldl stableStep []

/-- Outcome of a Discord call as the code distinguishes them:
success, `discord.NotFound`, any other exception. -/
inductive SinkRes
  | ok
  | notFound
  | err
deriving DecidableEq

/-- Observable actions of one tick: the startup purge, the two
reconciliation operations, and the individual sink calls. -/
inductive Event
  | purge
  | upsert (key : String) (names : List String)
  | removeOp (key : String)
  | sinkEdit (key : String) (res : SinkRes)
  | sinkSend (key : String) (newId : Option Nat)
  | sinkDelete (key : String)
deriving DecidableEq

/-- Model of `send_grouped_notification` (main.py lines 157-298), projected to its
state effect: try to edit the bound message when a binding exists, fall
through to a fresh send unless the edit succeeded, and record the new
message id only when the send succeeds.  `editRes`/`sendRes` give the
sink's response for this tick's call on each key. -/
def send_grouped_notification (active : List (String × Nat)) (server_addr : String)
    (players : List PlayerEntry) (editRes : String → SinkRes)
    (sendRes : String → Option Nat) : List (String × Nat) × List Event :=
  if players.isEmpty then (active, [])
  else
    match dictGet active server_addr with
    | some _ =>
      if editRes server_addr == SinkRes.ok then
        (active, [Event.sinkEdit server_addr (editRes server_addr)])
      else
        match sendRes server_addr with
        | some id =>
          (dictSet active server_addr id,
            [Event.sinkEdit server_addr (editRes server_addr),
              Event.sinkSend server_addr (some id)])
        | none =>
          (active,
            [Event.sinkEdit server_addr (editRes server_addr),
              Event.sinkSend server_addr none])
    | none =>
      match sendRes server_addr with
      | some id =>
        (dictSet active server_addr id, [Event.sinkSend server_addr (some id)])
      | none => (active, [Event.sinkSend server_addr none])

/-- Model of `remove_server_notification` (main.py lines 300-312): when a binding
exists, attempt the delete (its outcome `deleteRes` is swallowed whether
`NotFound` or any other error) and drop the binding unconditionally. -/
def remove_server_notification (active : List (String × Nat)) (server_addr : String)
    (_deleteRes : SinkRes) : List (String × Nat) × List Event :=
  if (dictGet active server_addr).isSome then
    (dictErase active server_addr, [Event.sinkDelete server_addr])
  else (active, [])

/-- Loop of main.py lines 129-135: for each stable group whose name set
differs from the previous tick's, emit the Upsert and perform the
send/edit. -/
def upsertPhase (cur : List (String × List PlayerEntry))
    (prev : List (String × List String)) (active : List (String × Nat))
    (editRes : String → SinkRes) (sendRes : String → Option Nat) :
    List (String × Nat) × List Event :=
  match cur with
  | [] => (active, [])
  | (server_addr, players) :: rest =>
    let player_names := players.map (·.name)
    let prev_players := dictGetD prev server_addr []
    if listSetEq player_names prev_players then
      upsertPhase rest prev active editRes sendRes
    else
      let s1 := send_grouped_notification active server_addr players editRes sendRes
      let s2 := upsertPhase rest prev s1.1 editRes sendRes
      (s2.1, (Event.upsert server_addr player_names :: s1.2) ++ s2.2)

/-- Loop of main.py lines 138-141: for each previous key absent from the
stable current state, emit the Remove and delete its notification. -/
def removePhase (prevKeys : List String) (cur : List (String × List PlayerEntry))
    (active : List (String × Nat)) (deleteRes : String → SinkRes) :
    List (String × Nat) × List Event :=
  match prevKeys with
  | [] => (active, [])
  | server_addr :: rest =>
    if (dictGet cur server_addr).isSome then
      removePhase rest cur active deleteRes
    else
      let s1 := remove_server_notification active server_addr (deleteRes server_addr)
      let s2 := removePhase rest cur s1.1 deleteRes
      (s2.1, (Event.removeOp server_addr :: s1.2) ++ s2.2)

/-- The loop-carried state of `check_players_loop`:
`bot.previous_server_state`, the module-level `active_messages`, and the
`bot.startup_cleanup_done` flag. -/
structure TickState where
  prev : List (String × List String)
  active : List (String × Nat)
  cleanupDone : Bool
deriving DecidableEq

/-- One iteration of `check_players_loop` (main.py lines 64-147) with the
notification channel available: a failed fetch returns immediately;
otherwise the one-time purge runs if still pending, the upsert loop and
then the remove loop execute, and `previous_server_state` is replaced by
the stable current state's name lists unconditionally. -/
def tick (st : TickState) (fetch : Option Snapshot) (tracked : List String)
    (editRes : String → SinkRes) (sendRes : String → Option Nat)
    (deleteRes : String → SinkRes) : TickState × List Event :=
  match fetch with
  | none => (st, [])
  | some snap =>
    let purgeEvents : List Event := if st.cleanupDone then [] else [Event.purge]
    let cur := stableCurrentState (buildCurrentState snap tracked)
    let s1 := upsertPhase cur st.prev st.active editRes sendRes
    let s2 := removePhase (dictKeys st.prev) cur s1.1 deleteRes
    let newPrev := cur.map (fun kv => (kv.1, kv.2.map (·.name)))
    (⟨newPrev, s2.1, true⟩, purgeEvents ++ s1.2 ++ s2.2)

/-- A whole process run: iterate `tick` over the successive fetch results,
collecting each tick's events. -/
def runTicks (st : TickState) (tracked : List String) (editRes : String → SinkRes)
    (sendRes : String → Option Nat) (deleteRes : String → SinkRes) :
    List (Option Snapshot) → TickState × List (List Event)
  | [] => (st, [])
  | f :: fs =>
    let s1 := tick st f tracked editRes sendRes deleteRes
    let s2 := runTicks s1.1 tracked editRes sendRes deleteRes fs
    (s2.1, s1.2 :: s2.2)

/-- Model of `PlayerTracker.remove_player` (tracker.py lines 15-33) on the tracked
set, modelled in its iteration order: exact-case removal first, otherwise
remove the first case-insensitive match; returns whether a removal
occurred. -/
def remove_player (tracked : List String) (player_name : String) :
    List String × Bool :=
  if player_name ∈ tracked then (tracked.erase player_name, true)
  else
    match tracked.find? (fun p => strLower p == strLower player_name) with
    | some p => (tracked.erase p, true)
    | none => (tracked, false)

/-! ### The notification content (`send_grouped_notification` lines 197-236
together with `image_utils.create_composite_image`) -/

/-- Embed description text of main.py lines 199-207 (callers guarantee a
non-empty name list; the empty case is unreachable). -/
def buildDescription (flag map_name : String) (player_names : List String) : String :=
  match player_names with
  | [] => ""
  | [n] => "**" ++ n ++ "** is playing\n" ++ flag ++ " **" ++ map_name ++ "**"
  | [n1, n2] =>
    "**" ++ n1 ++ "** and **" ++ n2 ++ "** are playing\n" ++ flag ++ " **"
      ++ map_name ++ "**"
  | ns =>
    String.intercalate ", " (ns.dropLast.map (fun n => "**" ++ n ++ "**"))
      ++ " and **" ++ (ns.getLast?.getD "") ++ "**"
      ++ " are playing\n" ++ flag ++ " **" ++ map_name ++ "**"

/-- What one grouped notification shows: the name list feeding the embed
description, the description itself, and the (skin, display-name) pairs the
composite image renders. -/
structure NotificationView where
  descriptionNames : List String
  description : String
  compositePairs : List (String × String)
deriving DecidableEq

/-- Content pipeline of `send_grouped_notification`: the description is
built from ALL players (line 198), while the render inputs are truncated
to the first two (line 224) and truncated to two again and zipped inside
`image_utils.create_composite_image` (lines 39-41, 63). -/
def notificationView (flag map_name : String) (players : List PlayerEntry) :
    NotificationView :=
  let player_names := players.map (·.name)
  let skin_names := (players.take 2).map (fun p => p.info.skin)
  let display_names := (players.take 2).map (·.name)
  { descriptionNames := player_names
    description := buildDescription flag map_name player_names
    compositePairs := (skin_names.take 2).zip (display_names.take 2) }

/-! ### Statement-side predicates -/

/-- Whether an event is one of the two reconciliation operations. -/
def isOpEvent : Event → Bool
  | Event.upsert _ _ => true
  | Event.removeOp _ => true
  | _ => false

/-- Whether an event is an individual sink call. -/
def isSinkEv : Event → Bool
  | Event.sinkEdit _ _ => true
  | Event.sinkSend _ _ => true
  | Event.sinkDelete _ => true
  | _ => false

/-- The operation subsequence of a tick's events. -/
def opEvents (evs : List Event) : List Event :=
  evs.filter isOpEvent

/-- The ordering discipline the spec asserts: once an Upsert has been
emitted, no Remove follows it. -/
def noRemoveAfterUpsert : List Event → Bool
  | [] => true
  | Event.upsert _ _ :: rest =>
    rest.all (fun e => match e with | Event.removeOp _ => false | _ => true)
      && noRemoveAfterUpsert rest
  | _ :: rest => noRemoveAfterUpsert rest

/-- The stable key a raw group re-keys to (`none` for an empty group,
which the refinement loop skips). -/
def groupStableKey (kv : String × List PlayerEntry) : Option String :=
  match kv.2 with
  | [] => none
  | p :: _ => some (get_server_key p.server.addresses)

/-- States that the purge runs exactly once, at the head of the first
successful tick, and never on a later tick — stated tick-by-tick against
the fetch outcomes. -/
def purgeOnce : List (Option Snapshot) → List (List Event) → Prop
  | [], [] => True
  | none :: fs, evs :: evss => evs = [] ∧ purgeOnce fs evss
  | some _ :: _, evs :: evss =>
    evs.head? = some Event.purge ∧ ∀ evs2 ∈ evss, Event.purge ∉ evs2
  | _, _ => False

/-- A concrete three-player group (used to witness the image
truncation). -/
def threePlayers : List PlayerEntry :=
  [⟨"A", ⟨"A", "skA", 0⟩, ⟨["a:1"], []⟩⟩,
   ⟨"B", ⟨"B", "skB", 0⟩, ⟨["a:1"], []⟩⟩,
   ⟨"C", ⟨"C", "skC", 0⟩, ⟨["a:1"], []⟩⟩]

/-- A server observed under two addresses, watched player `A` on it. -/
def serverR1 : ServerRecord := ⟨["b:1", "a:1"], [⟨"A", "sk", 0⟩]⟩

/-- The same machine observed again under one address, with `A`
(multi-boxing) and `B` on it. -/
def serverR2 : ServerRecord := ⟨["a:1"], [⟨"A", "sk", 0⟩, ⟨"B", "sk", 0⟩]⟩

/-- A snapshot whose two records resolve to the same stable key. -/
def snapCollide : Snapshot := ⟨[serverR1, serverR2]⟩

/-- A snapshot with player `P` on server `s2` only (used against a
previous state that had `P` on `s1`). -/
def snapSwitch : Snapshot := ⟨[⟨["s2"], [⟨"P", "sk", 0⟩]⟩]⟩

/-- A snapshot with Alice on one server. -/
def snapAlice : Snapshot := ⟨[⟨["1.2.3.4:8303"], [⟨"Alice", "default", 0⟩]⟩]⟩

/-- The entry `check_players_loop` builds for `P` out of `snapSwitch`. -/
def entryP : PlayerEntry := ⟨"P", ⟨"P", "sk", 0⟩, ⟨["s2"], [⟨"P", "sk", 0⟩]⟩⟩

/-! ### Order lemmas for the Python string order -/

theorem strLtB_irrefl : ∀ l : List Char, strLtB l l = false
  | [] => rfl
  | a :: as => by simp [strLtB, lt_irrefl, strLtB_irrefl as]

theorem strLtB_trans :
    ∀ a b c : List Char, strLtB a b = true → strLtB b c = true → strLtB a c = true
  | [], [], _, h1, _ => by simp [strLtB] at h1
  | [], _ :: _, [], _, h2 => by simp [strLtB] at h2
  | [], _ :: _, _ :: _, _, _ => rfl
  | _ :: _, [], _, h1, _ => by simp [strLtB] at h1
  | _ :: _, _ :: _, [], _, h2 => by simp [strLtB] at h2
  | a :: as, b :: bs, c :: cs, h1, h2 => by
    simp only [strLtB] at h1 h2 ⊢
    rcases lt_trichotomy a b with hab | hab | hab
    · rcases lt_trichotomy b c with hbc | hbc | hbc
      · simp [lt_trans hab hbc]
      · subst hbc; simp [hab]
      · simp [hbc, not_lt.mpr (le_of_lt hbc)] at h2
    · subst hab
      rcases lt_trichotomy a c with hac | hac | hac
      · simp [hac]
      · subst hac
        simp only [lt_irrefl, if_false] at h1 h2 ⊢
        exact strLtB_trans as bs cs h1 h2
      · simp [not_lt.mpr (le_of_lt hac), hac] at h2
    · simp [not_lt.mpr (le_of_lt hab), hab] at h1

theorem strLtB_eq_of_not :
    ∀ a b : List Char, strLtB a b = false → strLtB b a = false → a = b
  | [], [], _, _ => rfl
  | [], _ :: _, h1, _ => by simp [strLtB] at h1
  | _ :: _, [], _, h2 => by simp [strLtB] at h2
  | a :: as, b :: bs, h1, h2 => by
    simp only [strLtB] at h1 h2
    rcases lt_trichotomy a b with hab | hab | hab
    · simp [hab] at h1
    · subst hab
      simp only [lt_irrefl, if_false] at h1 h2
      rw [strLtB_eq_of_not as bs h1 h2]
    · simp [hab] at h2

theorem pyLe_refl (a : String) : pyLe a a = true := by
  simp [pyLe, strLtB_irrefl]

theorem pyLe_total (a b : String) : pyLe a b = true ∨ pyLe b a = true := by
  by_cases h : strLtB b.data a.data = true
  · right
    simp only [pyLe, Bool.not_eq_true']
    by_cases h2 : strLtB a.data b.data = true
    · have := strLtB_trans _ _ _ h h2
      rw [strLtB_irrefl] at this
      exact absurd this (by simp)
    · exact (Bool.not_eq_true _).mp h2
  · left
    simp only [pyLe, Bool.not_eq_true']
    exact (Bool.not_eq_true _).mp h

theorem pyLe_trans (a b c : String) :
    pyLe a b = true → pyLe b c = true → pyLe a c = true := by
  simp only [pyLe, Bool.not_eq_true']
  intro h1 h2
  by_cases hca : strLtB c.data a.data = true
  · by_cases hab : strLtB a.data b.data = true
    · have := strLtB_trans _ _ _ hca hab
      rw [this] at h2; exact absurd h2 (by simp)
    · have hab' : a.data = b.data :=
        strLtB_eq_of_not _ _ ((Bool.not_eq_true _).mp hab) h1
      rw [← hab'] at h2
      rw [h2] at hca; exact absurd hca (by simp)
  · exact (Bool.not_eq_true _).mp hca

theorem pyLe_antisymm (a b : String) :
    pyLe a b = true → pyLe b a = true → a = b := by
  simp only [pyLe, Bool.not_eq_true']
  intro h1 h2
  exact String.toList_inj.mp (strLtB_eq_of_not _ _ h2 h1)

instance : IsTotal String (fun a b => pyLe a b = true) := ⟨pyLe_total⟩

instance : IsTrans String (fun a b => pyLe a b = true) :=
  ⟨fun a b c => pyLe_trans a b c⟩

instance : IsRefl String (fun a b => pyLe a b = true) := ⟨pyLe_refl⟩

instance : IsAntisymm String (fun a b => pyLe a b = true) :=
  ⟨fun a b => pyLe_antisymm a b⟩

/-! ### Claim C5 -/

/-- C5: `get_server_key` returns the sentinel `"unknown"` on the empty
address list; on a non-empty list it returns an element of the list that
is least under the ordinary (code-point lexicographic) string order; and
any two permutations of the same address list yield the same key. -/
theorem get_server_key_spec :
    get_server_key [] = "unknown" ∧
    (∀ l : List String, l ≠ [] →
      get_server_key l ∈ l ∧ ∀ x ∈ l, pyLe (get_server_key l) x = true) ∧
    (∀ l l' : List String, l.Perm l' → get_server_key l = get_server_key l') := by
  refine ⟨rfl, ?_, ?_⟩
  · intro l hl
    obtain ⟨a, as, rfl⟩ : ∃ a as, l = a :: as := by
      cases l with
      | nil => exact absurd rfl hl
      | cons a as => exact ⟨a, as, rfl⟩
    have hperm : (List.insertionSort (fun a b => pyLe a b = true) (a :: as)).Perm
        (a :: as) := List.perm_insertionSort _ _
    have hsorted : List.Sorted (fun a b => pyLe a b = true)
        (List.insertionSort (fun a b => pyLe a b = true) (a :: as)) :=
      List.sorted_insertionSort _ _
    cases hs : List.insertionSort (fun a b => pyLe a b = true) (a :: as) with
    | nil =>
      rw [hs] at hperm
      exact absurd hperm.nil_eq.symm (by simp)
    | cons h t =>
      rw [hs] at hperm hsorted
      have hkey : get_server_key (a :: as) = h := by
        unfold get_server_key
        rw [hs]
        rfl
      constructor
      · rw [hkey]
        exact hperm.subset (List.mem_cons_self h t)
      · intro x hx
        rw [hkey]
        rcases List.mem_cons.mp (hperm.symm.subset hx) with hxh | hxt
        · rw [hxh]; exact pyLe_refl h
        · exact List.rel_of_sorted_cons hsorted x hxt
  · intro l l' hp
    cases l with
    | nil =>
      rw [hp.nil_eq.symm]
    | cons a as =>
      cases l' with
      | nil => exact absurd hp.symm.nil_eq.symm (by simp)
      | cons b bs =>
        have heq : List.insertionSort (fun a b => pyLe a b = true) (a :: as)
            = List.insertionSort (fun a b => pyLe a b = true) (b :: bs) :=
          List.eq_of_perm_of_sorted
            ((List.perm_insertionSort _ _).trans
              (hp.trans (List.perm_insertionSort _ _).symm))
            (List.sorted_insertionSort _ _) (List.sorted_insertionSort _ _)
        unfold get_server_key
        rw [heq]
        rfl

/-- Witness for C5 at a concrete address list and a permutation of it. -/
theorem get_server_key_spec_witness :
    get_server_key ["b:1", "a:1"] ∈ ["b:1", "a:1"] ∧
    (∀ x ∈ ["b:1", "a:1"], pyLe (get_server_key ["b:1", "a:1"]) x = true) ∧
    get_server_key ["b:1", "a:1"] = get_server_key ["a:1", "b:1"] :=
  ⟨(get_server_key_spec.2.1 ["b:1", "a:1"] (by decide)).1,
   (get_server_key_spec.2.1 ["b:1", "a:1"] (by decide)).2,
   get_server_key_spec.2.2 ["b:1", "a:1"] ["a:1", "b:1"] (by decide)⟩

/-! ### Claim C6 -/

/-- C6: when the snapshot fetch fails, the tick is skipped entirely:
no events at all (so no operations and no sink calls) and the whole
loop-carried state — `previous_server_state`, the message bindings and the
startup flag — is returned unchanged. -/
theorem tick_fetch_failure (st : TickState) (tracked : List String)
    (editRes : String → SinkRes) (sendRes : String → Option Nat)
    (deleteRes : String → SinkRes) :
    tick st none tracked editRes sendRes deleteRes = (st, []) := rfl

/-! ### Claim C8 -/

theorem dictGet_dictErase (d : List (String × α)) (k : String) :
    dictGet (dictErase d k) k = none := by
  have hfind : (dictErase d k).find? (fun kv => kv.1 == k) = none := by
    rw [List.find?_eq_none]
    intro x hx
    have hx' := List.of_mem_filter hx
    simp only [bne_iff_ne, ne_eq] at hx'
    simp [hx']
  simp [dictGet, hfind]

/-- C8: processing a Remove for a key with an existing binding attempts
the sink delete, and the binding is dropped unconditionally whatever the
delete's outcome — in particular a `NotFound` outcome is indistinguishable
from success and no failure is retried. -/
theorem remove_notification_spec (active : List (String × Nat)) (k : String)
    (m : Nat) (res : SinkRes) (h : dictGet active k = some m) :
    (remove_server_notification active k res).2 = [Event.sinkDelete k] ∧
    dictGet (remove_server_notification active k res).1 k = none ∧
    remove_server_notification active k res
      = remove_server_notification active k SinkRes.notFound := by
  have hs : (dictGet active k).isSome := by rw [h]; rfl
  refine ⟨?_, ?_, rfl⟩
  · simp [remove_server_notification, hs]
  · simp [remove_server_notification, hs, dictGet_dictErase]

/-- Witness for C8: a bound key, a failing delete. -/
theorem remove_notification_spec_witness :
    (remove_server_notification [("srv", 5)] "srv" SinkRes.err).2
      = [Event.sinkDelete "srv"] ∧
    dictGet (remove_server_notification [("srv", 5)] "srv" SinkRes.err).1 "srv"
      = none ∧
    remove_server_notification [("srv", 5)] "srv" SinkRes.err
      = remove_server_notification [("srv", 5)] "srv" SinkRes.notFound :=
  remove_notification_spec [("srv", 5)] "srv" 5 SinkRes.err (by decide)

/-! ### Claim C9 -/

/-- C9: with more than two players grouped on one server, the composite
image renders exactly the first two players' (skin, display-name) pairs in
group order, while the embed description is built from the full name
list. -/
theorem composite_two_players (flag map_name : String)
    (players : List PlayerEntry) (h : 2 < players.length) :
    (notificationView flag map_name players).compositePairs
      = (players.take 2).map (fun p => (p.info.skin, p.name)) ∧
    (notificationView flag map_name players).compositePairs.length = 2 ∧
    (notificationView flag map_name players).descriptionNames
      = players.map (·.name) := by
  have htake : ∀ (f : PlayerEntry → String),
      ((players.take 2).map f).take 2 = (players.take 2).map f := by
    intro f
    apply List.take_of_length_le
    simp [List.length_take]
  have hpairs : (notificationView flag map_name players).compositePairs
      = (players.take 2).map (fun p => (p.info.skin, p.name)) := by
    show (((players.take 2).map (fun p => p.info.skin)).take 2).zip
        (((players.take 2).map (·.name)).take 2)
      = (players.take 2).map (fun p => (p.info.skin, p.name))
    rw [htake, htake, List.zip_map']
  refine ⟨hpairs, ?_, rfl⟩
  rw [hpairs]
  simp [List.length_take]
  omega

/-- Witness for C9 at a three-player group. -/
theorem composite_two_players_witness :
    (notificationView "fl" "Sunny" threePlayers).compositePairs
      = (threePlayers.take 2).map (fun p => (p.info.skin, p.name)) ∧
    (notificationView "fl" "Sunny" threePlayers).compositePairs.length = 2 ∧
    (notificationView "fl" "Sunny" threePlayers).descriptionNames
      = threePlayers.map (·.name) :=
  composite_two_players "fl" "Sunny" threePlayers (by decide)

/-! ### Claim C10 -/

/-- C10: one `remove_player` call removes exactly one entry when any
case-insensitive match is tracked: the exact-case match when present,
otherwise the first case-insensitive match in iteration order; the call
returns `true` and every other tracked name stays tracked. -/
theorem remove_player_spec (tracked : List String) (name p0 : String)
    (hp0 : p0 ∈ tracked) (hci : strLower p0 = strLower name) :
    ∃ r, r ∈ tracked ∧ strLower r = strLower name ∧
      remove_player tracked name = (tracked.erase r, true) ∧
      (name ∈ tracked → r = name) ∧
      (tracked.erase r).length + 1 = tracked.length ∧
      ∀ q ∈ tracked, q ≠ r → q ∈ tracked.erase r := by
  by_cases hmem : name ∈ tracked
  · refine ⟨name, hmem, rfl, ?_, fun _ => rfl, ?_, ?_⟩
    · simp [remove_player, hmem]
    · rw [List.length_erase_of_mem hmem]
      exact Nat.succ_pred_eq_of_pos (List.length_pos_of_mem hmem)
    · intro q _ hq
      exact (List.mem_erase_of_ne hq).mpr (by assumption)
  · obtain ⟨p, hf⟩ : ∃ p,
        tracked.find? (fun p => strLower p == strLower name) = some p := by
      cases hfind : tracked.find? (fun p => strLower p == strLower name) with
      | some p => exact ⟨p, rfl⟩
      | none =>
        have := List.find?_eq_none.mp hfind p0 hp0
        simp [hci] at this
    have hpmem : p ∈ tracked := List.mem_of_find?_eq_some hf
    have hpci : strLower p = strLower name := by
      have := List.find?_some hf
      simpa using this
    refine ⟨p, hpmem, hpci, ?_, fun hn => absurd hn hmem, ?_, ?_⟩
    · simp [remove_player, hmem, hf]
    · rw [List.length_erase_of_mem hpmem]
      exact Nat.succ_pred_eq_of_pos (List.length_pos_of_mem hpmem)
    · intro q hq hqp
      exact (List.mem_erase_of_ne hqp).mpr hq

/-- Witness for C10: two tracked names differing only in case and no
exact-case match; exactly the first case-insensitive match goes. -/
theorem remove_player_spec_witness :
    ∃ r, r ∈ ["Bob", "alice", "ALICE"] ∧ strLower r = strLower "Alice" ∧
      remove_player ["Bob", "alice", "ALICE"] "Alice"
        = (["Bob", "alice", "ALICE"].erase r, true) ∧
      ("Alice" ∈ ["Bob", "alice", "ALICE"] → r = "Alice") ∧
      (["Bob", "alice", "ALICE"].erase r).length + 1
        = (["Bob", "alice", "ALICE"] : List String).length ∧
      ∀ q ∈ ["Bob", "alice", "ALICE"], q ≠ r →
        q ∈ ["Bob", "alice", "ALICE"].erase r :=
  remove_player_spec ["Bob", "alice", "ALICE"] "Alice" "alice"
    (by decide) (by decide)

/-! ### Dict lemmas -/

theorem find?_cons_pos {α : Type _} {p : α → Bool} {a : α} (l : List α)
    (h : p a = true) : List.find? p (a :: l) = some a := by
  simp [List.find?, h]

theorem find?_cons_neg {α : Type _} {p : α → Bool} {a : α} (l : List α)
    (h : p a = false) : List.find? p (a :: l) = List.find? p l := by
  simp [List.find?, h]

theorem find?_map_replace (d : List (String × α)) (k : String) (v : α)
    (h : (d.find? (fun kv => kv.1 == k)).isSome) :
    (d.map (fun kv => if kv.1 == k then (kv.1, v) else kv)).find?
        (fun kv => kv.1 == k) = some (k, v) := by
  induction d with
  | nil => simp at h
  | cons kv rest ih =>
    by_cases hk : kv.1 == k
    · have hrep : (if kv.1 == k then (kv.1, v) else kv) = (kv.1, v) := if_pos hk
      have hkeq : kv.1 = k := eq_of_beq hk
      rw [List.map_cons, hrep, List.find?_cons_of_pos _ (by simpa using hk), hkeq]
    · have hrep : (if kv.1 == k then (kv.1, v) else kv) = kv := if_neg (by simpa using hk)
      rw [List.find?_cons_of_neg _ (by simpa using hk)] at h
      rw [List.map_cons, hrep, List.find?_cons_of_neg _ (by simpa using hk)]
      exact ih h

theorem find?_map_replace_ne (d : List (String × α)) (k k' : String) (v : α)
    (hne : k' ≠ k) :
    (d.map (fun kv => if kv.1 == k then (kv.1, v) else kv)).find?
        (fun kv => kv.1 == k')
      = d.find? (fun kv => kv.1 == k') := by
  induction d with
  | nil => rfl
  | cons kv rest ih =>
    by_cases hk' : kv.1 == k'
    · have hkne : (kv.1 == k) = false := by
        have : kv.1 = k' := eq_of_beq hk'
        simp [this, hne]
      have hrep : (if kv.1 == k then (kv.1, v) else kv) = kv := by simp [hkne]
      rw [List.map_cons, hrep, List.find?_cons_of_pos _ (by simpa using hk'),
        List.find?_cons_of_pos _ (by simpa using hk')]
    · have hrep1 : (if kv.1 == k then (kv.1, v) else kv).1 = kv.1 := by
        by_cases hk : kv.1 == k <;> simp [hk]
      have hb1 : ((if kv.1 == k then (kv.1, v) else kv).1 == k') = false := by
        rw [hrep1]
        simpa using hk'
      have hb2 : (kv.1 == k') = false := by simpa using hk'
      rw [List.map_cons,
        @find?_cons_neg _ (fun kv => kv.1 == k')
          (if kv.1 == k then (kv.1, v) else kv) _ hb1,
        @find?_cons_neg _ (fun kv => kv.1 == k') kv _ hb2]
      exact ih

theorem dictGet_dictSet_self (d : List (String × α)) (k : String) (v : α) :
    dictGet (dictSet d k v) k = some v := by
  unfold dictSet
  by_cases h : (dictGet d k).isSome
  · rw [if_pos h]
    have hf : (d.find? (fun kv => kv.1 == k)).isSome := by
      unfold dictGet at h
      simpa using h
    unfold dictGet
    rw [find?_map_replace d k v hf]
    rfl
  · rw [if_neg h]
    have hf : d.find? (fun kv => kv.1 == k) = none := by
      unfold dictGet at h
      cases hx : d.find? (fun kv => kv.1 == k) with
      | none => rfl
      | some x => rw [hx] at h; simp at h
    unfold dictGet
    rw [List.find?_append, hf]
    simp

theorem dictGet_dictSet_ne (d : List (String × α)) (k k' : String) (v : α)
    (hne : k' ≠ k) :
    dictGet (dictSet d k v) k' = dictGet d k' := by
  unfold dictSet
  by_cases h : (dictGet d k).isSome
  · rw [if_pos h]
    unfold dictGet
    rw [find?_map_replace_ne d k k' v hne]
  · rw [if_neg h]
    unfold dictGet
    rw [List.find?_append]
    have h2 : ([(k, v)] : List (String × α)).find? (fun kv => kv.1 == k') = none := by
      rw [List.find?_cons_of_neg _ (by simp; exact fun h => hne h.symm)]
      rfl
    rw [h2]
    cases d.find? (fun kv => kv.1 == k') <;> rfl

/-! ### Claim C2 -/

/-- C2 counterexample: in `snapCollide` both server records resolve to the
stable key `"a:1"` and player `A` is observed under both; still the
reconciled entry for `"a:1"` carries only `["B"]` — the second group
replaced the first instead of being unioned with it, and `A`'s further
instance contributed nothing. -/
theorem upsert_union_counterexample :
    get_server_key serverR1.addresses = "a:1" ∧
    get_server_key serverR2.addresses = "a:1" ∧
    (find_player snapCollide "A").map (·.server) = [serverR1, serverR2] ∧
    (dictGet (stableCurrentState (buildCurrentState snapCollide ["A", "B"])) "a:1").map
        (fun ps => ps.map (·.name)) = some ["B"] := by decide

theorem stableCurrentState_aux (k : String) :
    ∀ (raw acc : List (String × List PlayerEntry)),
    dictGet (List.foldl stableStep acc raw) k
      = match raw.reverse.find? (fun g => groupStableKey g == some k) with
        | some g => some g.2
        | none => dictGet acc k
  | [], _ => by simp
  | g :: raw, acc => by
    rw [List.foldl_cons, stableCurrentState_aux k raw (stableStep acc g),
      List.reverse_cons, List.find?_append]
    cases hf : raw.reverse.find? (fun g => groupStableKey g == some k) with
    | some g2 => rfl
    | none =>
      show dictGet (stableStep acc g) k
        = match ([g].find? fun g => groupStableKey g == some k) with
          | some g => some g.2
          | none => dictGet acc k
      cases hg : g.2 with
      | nil =>
        have hstep : stableStep acc g = acc := by
          unfold stableStep
          rw [hg]
        have hp : (groupStableKey g == some k) = false := by
          unfold groupStableKey
          rw [hg]
          rfl
        rw [hstep, List.find?_cons_of_neg _ (by simp [hp])]
        rfl
      | cons q qs =>
        have hstep : stableStep acc g
            = dictSet acc (get_server_key q.server.addresses) g.2 := by
          unfold stableStep
          rw [hg]
        have hkey : groupStableKey g = some (get_server_key q.server.addresses) := by
          unfold groupStableKey
          rw [hg]
        by_cases hk : get_server_key q.server.addresses = k
        · have hp : (groupStableKey g == some k) = true := by
            rw [hkey, hk]
            simp
          rw [hstep, hk, dictGet_dictSet_self, List.find?_cons_of_pos _ (by simp [hp])]
        · have hp : (groupStableKey g == some k) = false := by
            rw [hkey]
            simpa using hk
          rw [hstep, dictGet_dictSet_ne _ _ _ _ (fun he => hk he.symm),
            List.find?_cons_of_neg _ (by simp [hp])]
          rfl

/-- C2 amended: when several raw-address groups resolve to the same stable
ServerKey, the reconciled entry for that key is the player list of the
LAST such group — later groups overwrite earlier ones; no union is
taken (and each group already holds only each player's first-found
instance). -/
theorem stableCurrentState_last_write
    (raw : List (String × List PlayerEntry)) (k : String) :
    dictGet (stableCurrentState raw) k
      = (raw.reverse.find? (fun g => groupStableKey g == some k)).map (·.2) := by
  rw [stableCurrentState, stableCurrentState_aux k raw []]
  cases raw.reverse.find? (fun g => groupStableKey g == some k) <;> rfl

/-! ### Phase lemmas for the tick -/

/-- The events of a successful tick are the purge (when still pending),
then the whole upsert phase, then the whole remove phase. -/
theorem tick_events_eq (st : TickState) (snap : Snapshot) (tracked : List String)
    (e : String → SinkRes) (s : String → Option Nat) (d : String → SinkRes) :
    (tick st (some snap) tracked e s d).2
      = (if st.cleanupDone then [] else [Event.purge])
        ++ (upsertPhase (stableCurrentState (buildCurrentState snap tracked))
            st.prev st.active e s).2
        ++ (removePhase (dictKeys st.prev)
            (stableCurrentState (buildCurrentState snap tracked))
            (upsertPhase (stableCurrentState (buildCurrentState snap tracked))
              st.prev st.active e s).1 d).2 := rfl

/-- The state a successful tick commits: the stable current state's name
lists, the remove phase's bindings, and the purge marked done. -/
theorem tick_state_eq (st : TickState) (snap : Snapshot) (tracked : List String)
    (e : String → SinkRes) (s : String → Option Nat) (d : String → SinkRes) :
    (tick st (some snap) tracked e s d).1
      = ⟨(stableCurrentState (buildCurrentState snap tracked)).map
            (fun kv => (kv.1, kv.2.map (·.name))),
          (removePhase (dictKeys st.prev)
            (stableCurrentState (buildCurrentState snap tracked))
            (upsertPhase (stableCurrentState (buildCurrentState snap tracked))
              st.prev st.active e s).1 d).1,
          true⟩ := rfl

theorem mem_dictKeys_of_dictGet (d : List (String × α)) (k : String) (v : α)
    (h : dictGet d k = some v) : k ∈ dictKeys d := by
  unfold dictGet at h
  cases hf : d.find? (fun kv => kv.1 == k) with
  | none => rw [hf] at h; simp at h
  | some kv =>
    have hmem := List.mem_of_find?_eq_some hf
    have hp : kv.1 = k := by simpa using List.find?_some hf
    unfold dictKeys
    exact hp ▸ List.mem_map_of_mem _ hmem

/-- A group present in the stable current state whose name set differs
from the previous tick's produces its Upsert event in the upsert phase. -/
theorem upsertPhase_upsert_mem :
    ∀ (cur : List (String × List PlayerEntry)) (prev : List (String × List String))
      (active : List (String × Nat)) (e : String → SinkRes)
      (s : String → Option Nat) (k : String) (players : List PlayerEntry),
      (k, players) ∈ cur →
      listSetEq (players.map (·.name)) (dictGetD prev k []) = false →
      Event.upsert k (players.map (·.name)) ∈ (upsertPhase cur prev active e s).2
  | [], _, _, _, _, _, _, hmem, _ => absurd hmem (List.not_mem_nil _)
  | (k0, ps0) :: rest, prev, active, e, s, k, players, hmem, hne => by
    rcases List.mem_cons.mp hmem with heq | htail
    · rw [Prod.mk.injEq] at heq
      obtain ⟨hk, hps⟩ := heq
      subst hk
      subst hps
      show Event.upsert k (players.map (·.name))
        ∈ (upsertPhase ((k, players) :: rest) prev active e s).2
      rw [upsertPhase, if_neg (by simp [hne])]
      exact List.mem_append_left _ (List.mem_cons_self _ _)
    · by_cases hcond :
        listSetEq (ps0.map (·.name)) (dictGetD prev k0 []) = true
      · rw [upsertPhase, if_pos hcond]
        exact upsertPhase_upsert_mem rest prev active e s k players htail hne
      · rw [upsertPhase, if_neg hcond]
        refine List.mem_append_right _ ?_
        exact upsertPhase_upsert_mem rest prev
          (send_grouped_notification active k0 ps0 e s).1 e s k players htail hne

/-- A previous key absent from the stable current state produces its
Remove event in the remove phase. -/
theorem removePhase_removeOp_mem :
    ∀ (prevKeys : List String) (cur : List (String × List PlayerEntry))
      (active : List (String × Nat)) (d : String → SinkRes) (k : String),
      k ∈ prevKeys → dictGet cur k = none →
      Event.removeOp k ∈ (removePhase prevKeys cur active d).2
  | [], _, _, _, _, hmem, _ => absurd hmem (List.not_mem_nil _)
  | k0 :: rest, cur, active, d, k, hmem, habs => by
    rcases List.mem_cons.mp hmem with heq | htail
    · subst heq
      rw [removePhase, if_neg (by rw [habs]; simp)]
      exact List.mem_append_left _ (List.mem_cons_self _ _)
    · by_cases hcond : (dictGet cur k0).isSome = true
      · rw [removePhase, if_pos hcond]
        exact removePhase_removeOp_mem rest cur active d k htail habs
      · rw [removePhase, if_neg hcond]
        refine List.mem_append_right _ ?_
        exact removePhase_removeOp_mem rest cur
          (remove_server_notification active k0 (d k0)).1 d k htail habs

/-! ### Claim C3 -/

/-- C3 counterexample: with `P` previously on `s1` and now on `s2`, the
tick's operation sequence is `[Upsert(s2, [P]), Remove(s1)]` — the add
comes FIRST, so the claimed removes-before-adds ordering fails. -/
theorem remove_before_upsert_counterexample :
    opEvents ((tick ⟨[("s1", ["P"])], [], true⟩ (some snapSwitch) ["P"]
        (fun _ => SinkRes.err) (fun _ => some 1) (fun _ => SinkRes.ok)).2)
      = [Event.upsert "s2" ["P"], Event.removeOp "s1"] ∧
    noRemoveAfterUpsert (opEvents ((tick ⟨[("s1", ["P"])], [], true⟩
        (some snapSwitch) ["P"]
        (fun _ => SinkRes.err) (fun _ => some 1) (fun _ => SinkRes.ok)).2))
      = false := by decide

/-- C3 amended: when a player moves from `S1` to `S2` between ticks, the
tick emits both the Upsert for `S2` and the Remove for `S1` within the
same pass, but with the Upsert BEFORE the Remove (adds precede
removes — the opposite of the claimed order). -/
theorem switch_upsert_before_remove (st : TickState) (snap : Snapshot)
    (tracked : List String) (e : String → SinkRes) (s : String → Option Nat)
    (d : String → SinkRes) (S1 S2 : String) (ns1 : List String)
    (players2 : List PlayerEntry)
    (h1 : dictGet st.prev S1 = some ns1)
    (h2 : dictGet (stableCurrentState (buildCurrentState snap tracked)) S1 = none)
    (h3 : (S2, players2) ∈ stableCurrentState (buildCurrentState snap tracked))
    (h4 : listSetEq (players2.map (·.name)) (dictGetD st.prev S2 []) = false) :
    ∃ l1 l2 l3, (tick st (some snap) tracked e s d).2
      = l1 ++ Event.upsert S2 (players2.map (·.name))
          :: (l2 ++ Event.removeOp S1 :: l3) := by
  have hup := upsertPhase_upsert_mem
    (stableCurrentState (buildCurrentState snap tracked)) st.prev st.active e s
    S2 players2 h3 h4
  have hrm := removePhase_removeOp_mem (dictKeys st.prev)
    (stableCurrentState (buildCurrentState snap tracked))
    (upsertPhase (stableCurrentState (buildCurrentState snap tracked))
      st.prev st.active e s).1 d S1
    (mem_dictKeys_of_dictGet st.prev S1 ns1 h1) h2
  obtain ⟨a, b, hab⟩ := List.append_of_mem hup
  obtain ⟨c, d2, hcd⟩ := List.append_of_mem hrm
  refine ⟨(if st.cleanupDone then [] else [Event.purge]) ++ a, b ++ c, d2, ?_⟩
  rw [tick_events_eq, hab, hcd]
  simp [List.append_assoc]

/-- Witness for C3's amended claim on the concrete switch scenario. -/
theorem switch_upsert_before_remove_witness :
    ∃ l1 l2 l3,
      (tick ⟨[("s1", ["P"])], [], true⟩ (some snapSwitch) ["P"]
          (fun _ => SinkRes.err) (fun _ => some 1) (fun _ => SinkRes.ok)).2
        = l1 ++ Event.upsert "s2" ([entryP].map (·.name))
            :: (l2 ++ Event.removeOp "s1" :: l3) :=
  switch_upsert_before_remove ⟨[("s1", ["P"])], [], true⟩ snapSwitch ["P"]
    (fun _ => SinkRes.err) (fun _ => some 1) (fun _ => SinkRes.ok)
    "s1" "s2" ["P"] [entryP] (by decide) (by decide) (by decide) (by decide)

/-! ### Key-uniqueness and shape lemmas -/

theorem isSome_dictGet_of_mem_keys :
    ∀ (d : List (String × α)) (k : String), k ∈ dictKeys d →
      (dictGet d k).isSome = true
  | [], _, h => absurd h (List.not_mem_nil _)
  | kv :: rest, k, h => by
    by_cases hk : (kv.1 == k) = true
    · unfold dictGet
      rw [@find?_cons_pos _ (fun kv => kv.1 == k) kv _ hk]
      rfl
    · unfold dictGet
      rw [@find?_cons_neg _ (fun kv => kv.1 == k) kv _ (by simpa using hk)]
      apply isSome_dictGet_of_mem_keys rest k
      rcases List.mem_cons.mp h with heq | htail
      · exact absurd (by simp [heq]) hk
      · exact htail

theorem dictGet_of_mem_nodup :
    ∀ (d : List (String × α)) (k : String) (v : α),
      (dictKeys d).Nodup → (k, v) ∈ d → dictGet d k = some v
  | [], _, _, _, hmem => absurd hmem (List.not_mem_nil _)
  | kv :: rest, k, v, hnd, hmem => by
    obtain ⟨hhead, htl⟩ := List.nodup_cons.mp hnd
    rcases List.mem_cons.mp hmem with heq | htail
    · subst heq
      unfold dictGet
      rw [@find?_cons_pos _ (fun kv => kv.1 == k) (k, v) _ (by simp)]
      rfl
    · have hk : (kv.1 == k) = false := by
        by_contra hc
        have hkk : kv.1 = k := by
          have := (Bool.not_eq_false _).mp hc
          exact eq_of_beq this
        apply hhead
        simpa [hkk] using List.mem_map_of_mem (fun x : String × α => x.1) htail
      unfold dictGet
      rw [@find?_cons_neg _ (fun kv => kv.1 == k) kv _ hk]
      exact dictGet_of_mem_nodup rest k v htl htail

theorem dictGet_map_value :
    ∀ (d : List (String × α)) (f : α → β) (k : String),
      dictGet (d.map (fun kv => (kv.1, f kv.2))) k = (dictGet d k).map f
  | [], _, _ => rfl
  | kv :: rest, f, k => by
    by_cases hk : (kv.1 == k) = true
    · unfold dictGet
      rw [List.map_cons,
        @find?_cons_pos _ (fun kv => kv.1 == k) (kv.1, f kv.2) _ (by simpa using hk),
        @find?_cons_pos _ (fun kv => kv.1 == k) kv _ hk]
      rfl
    · unfold dictGet
      rw [List.map_cons,
        @find?_cons_neg _ (fun kv => kv.1 == k) (kv.1, f kv.2) _ (by simpa using hk),
        @find?_cons_neg _ (fun kv => kv.1 == k) kv _ (by simpa using hk)]
      exact dictGet_map_value rest f k

theorem dictKeys_map_value (d : List (String × α)) (f : α → β) :
    dictKeys (d.map (fun kv => (kv.1, f kv.2))) = dictKeys d := by
  unfold dictKeys
  rw [List.map_map]
  rfl

theorem dictKeys_dictSet_present (d : List (String × α)) (k : String) (v : α)
    (h : (dictGet d k).isSome = true) :
    dictKeys (dictSet d k v) = dictKeys d := by
  unfold dictSet
  rw [if_pos h]
  unfold dictKeys
  rw [List.map_map]
  apply List.map_congr_left
  intro kv _
  show (if (kv.1 == k) = true then (kv.1, v) else kv).1 = kv.1
  split <;> rfl

theorem dictKeys_dictSet_absent (d : List (String × α)) (k : String) (v : α)
    (h : ¬(dictGet d k).isSome = true) :
    dictKeys (dictSet d k v) = dictKeys d ++ [k] := by
  unfold dictSet
  rw [if_neg h]
  unfold dictKeys
  rw [List.map_append]
  rfl

theorem nodup_dictKeys_dictSet (d : List (String × α)) (k : String) (v : α)
    (h : (dictKeys d).Nodup) : (dictKeys (dictSet d k v)).Nodup := by
  by_cases hs : (dictGet d k).isSome = true
  · rw [dictKeys_dictSet_present d k v hs]
    exact h
  · rw [dictKeys_dictSet_absent d k v hs]
    refine h.append (List.nodup_singleton k) ?_
    intro x hx hxk
    rw [List.mem_singleton.mp hxk] at hx
    exact hs (isSome_dictGet_of_mem_keys d k hx)

theorem nodup_keys_foldl_stableStep :
    ∀ (raw acc : List (String × List PlayerEntry)), (dictKeys acc).Nodup →
      (dictKeys (List.foldl stableStep acc raw)).Nodup
  | [], _, h => h
  | g :: raw, acc, h => by
    rw [List.foldl_cons]
    apply nodup_keys_foldl_stableStep raw
    unfold stableStep
    cases hg : g.2 with
    | nil => exact h
    | cons q qs => exact nodup_dictKeys_dictSet _ _ _ h

theorem stableCurrentState_nodupKeys (raw : List (String × List PlayerEntry)) :
    (dictKeys (stableCurrentState raw)).Nodup :=
  nodup_keys_foldl_stableStep raw [] List.nodup_nil

theorem listSetEq_refl (a : List String) : listSetEq a a = true := by
  unfold listSetEq
  rw [Bool.and_self]
  rw [List.all_eq_true]
  intro x hx
  exact List.elem_iff.mpr hx

theorem send_grouped_sink_only (active : List (String × Nat)) (server_addr : String)
    (players : List PlayerEntry) (e : String → SinkRes) (s : String → Option Nat) :
    ∀ ev ∈ (send_grouped_notification active server_addr players e s).2,
      isSinkEv ev = true := by
  intro ev hev
  by_cases hemp : players.isEmpty = true
  · simp [send_grouped_notification, hemp] at hev
  · cases hm : dictGet active server_addr with
    | some m =>
      by_cases hok : (e server_addr == SinkRes.ok) = true
      · simp [send_grouped_notification, hemp, hm, hok] at hev
        rw [hev]
        rfl
      · cases hs : s server_addr with
        | some id =>
          simp [send_grouped_notification, hemp, hm, hok, hs] at hev
          rcases hev with h | h <;> rw [h] <;> rfl
        | none =>
          simp [send_grouped_notification, hemp, hm, hok, hs] at hev
          rcases hev with h | h <;> rw [h] <;> rfl
    | none =>
      cases hs : s server_addr with
      | some id =>
        simp [send_grouped_notification, hemp, hm, hs] at hev
        rw [hev]
        rfl
      | none =>
        simp [send_grouped_notification, hemp, hm, hs] at hev
        rw [hev]
        rfl

theorem remove_notification_sink_only (active : List (String × Nat)) (k : String)
    (r : SinkRes) :
    ∀ ev ∈ (remove_server_notification active k r).2, isSinkEv ev = true := by
  intro ev hev
  unfold remove_server_notification at hev
  by_cases h : (dictGet active k).isSome = true
  · rw [if_pos h] at hev
    rw [List.mem_singleton.mp hev]
    rfl
  · rw [if_neg h] at hev
    exact absurd hev (List.not_mem_nil _)

/-- Every event of the upsert phase is either an Upsert operation for a
group of the current state whose name set differs from the previous one,
or a sink call. -/
theorem upsertPhase_events_shape :
    ∀ (cur : List (String × List PlayerEntry)) (prev : List (String × List String))
      (active : List (String × Nat)) (e : String → SinkRes)
      (s : String → Option Nat) (ev : Event),
      ev ∈ (upsertPhase cur prev active e s).2 →
      (∃ k players, (k, players) ∈ cur ∧
        ev = Event.upsert k (players.map (·.name)) ∧
        listSetEq (players.map (·.name)) (dictGetD prev k []) = false)
      ∨ isSinkEv ev = true
  | [], _, _, _, _, _, h => absurd h (List.not_mem_nil _)
  | (k0, ps0) :: rest, prev, active, e, s, ev, h => by
    by_cases hcond : listSetEq (ps0.map (·.name)) (dictGetD prev k0 []) = true
    · rw [upsertPhase, if_pos hcond] at h
      rcases upsertPhase_events_shape rest prev active e s ev h with
        ⟨k, ps, hm, hevv, hne⟩ | hsink
      · exact Or.inl ⟨k, ps, List.mem_cons_of_mem _ hm, hevv, hne⟩
      · exact Or.inr hsink
    · rw [upsertPhase, if_neg hcond] at h
      rcases List.mem_append.mp h with h1 | h2
      · rcases List.mem_cons.mp h1 with hhead | hsend
        · exact Or.inl ⟨k0, ps0, List.mem_cons_self _ _, hhead,
            (Bool.not_eq_true _).mp hcond⟩
        · exact Or.inr (send_grouped_sink_only active k0 ps0 e s ev hsend)
      · rcases upsertPhase_events_shape rest prev
          (send_grouped_notification active k0 ps0 e s).1 e s ev h2 with
          ⟨k, ps, hm, hevv, hne⟩ | hsink
        · exact Or.inl ⟨k, ps, List.mem_cons_of_mem _ hm, hevv, hne⟩
        · exact Or.inr hsink

/-- Every event of the remove phase is either a Remove operation for a key
absent from the current state, or a sink call. -/
theorem removePhase_events_shape :
    ∀ (prevKeys : List String) (cur : List (String × List PlayerEntry))
      (active : List (String × Nat)) (d : String → SinkRes) (ev : Event),
      ev ∈ (removePhase prevKeys cur active d).2 →
      (∃ k, ev = Event.removeOp k ∧ dictGet cur k = none) ∨ isSinkEv ev = true
  | [], _, _, _, _, h => absurd h (List.not_mem_nil _)
  | k0 :: rest, cur, active, d, ev, h => by
    by_cases hcond : (dictGet cur k0).isSome = true
    · rw [removePhase, if_pos hcond] at h
      exact removePhase_events_shape rest cur active d ev h
    · rw [removePhase, if_neg hcond] at h
      rcases List.mem_append.mp h with h1 | h2
      · rcases List.mem_cons.mp h1 with hhead | hdel
        · refine Or.inl ⟨k0, hhead, ?_⟩
          cases hx : dictGet cur k0 with
          | none => rfl
          | some y => rw [hx] at hcond; simp at hcond
        · exact Or.inr (remove_notification_sink_only active k0 (d k0) ev hdel)
      · exact removePhase_events_shape rest cur
          (remove_server_notification active k0 (d k0)).1 d ev h2

/-- When no group's name set changed, the upsert phase does nothing. -/
theorem upsertPhase_no_change :
    ∀ (cur : List (String × List PlayerEntry)) (prev : List (String × List String))
      (active : List (String × Nat)) (e : String → SinkRes)
      (s : String → Option Nat),
      (∀ kv ∈ cur, listSetEq (kv.2.map (·.name)) (dictGetD prev kv.1 []) = true) →
      upsertPhase cur prev active e s = (active, [])
  | [], _, _, _, _, _ => rfl
  | (k0, ps0) :: rest, prev, active, e, s, h => by
    rw [upsertPhase, if_pos (h (k0, ps0) (List.mem_cons_self _ _))]
    exact upsertPhase_no_change rest prev active e s
      (fun kv hkv => h kv (List.mem_cons_of_mem _ hkv))

/-- When every previous key is still present, the remove phase does
nothing. -/
theorem removePhase_all_present :
    ∀ (prevKeys : List String) (cur : List (String × List PlayerEntry))
      (active : List (String × Nat)) (d : String → SinkRes),
      (∀ k ∈ prevKeys, (dictGet cur k).isSome = true) →
      removePhase prevKeys cur active d = (active, [])
  | [], _, _, _, _ => rfl
  | k0 :: rest, cur, active, d, h => by
    rw [removePhase, if_pos (h k0 (List.mem_cons_self _ _))]
    exact removePhase_all_present rest cur active d
      (fun k hk => h k (List.mem_cons_of_mem _ hk))

/-- A tick run from a state just committed from the same snapshot emits
nothing at all. -/
theorem tick_after_commit_empty (snap : Snapshot) (tracked : List String)
    (active2 : List (String × Nat)) (e2 : String → SinkRes)
    (s2 : String → Option Nat) (d2 : String → SinkRes) :
    (tick ⟨(stableCurrentState (buildCurrentState snap tracked)).map
        (fun kv => (kv.1, kv.2.map (·.name))), active2, true⟩
      (some snap) tracked e2 s2 d2).2 = [] := by
  have hnd := stableCurrentState_nodupKeys (buildCurrentState snap tracked)
  have hcond : ∀ kv ∈ stableCurrentState (buildCurrentState snap tracked),
      listSetEq (kv.2.map (·.name))
        (dictGetD ((stableCurrentState (buildCurrentState snap tracked)).map
          (fun kv => (kv.1, kv.2.map (·.name)))) kv.1 []) = true := by
    intro kv hkv
    have hget : dictGet ((stableCurrentState (buildCurrentState snap tracked)).map
        (fun kv => (kv.1, kv.2.map (·.name)))) kv.1
        = (dictGet (stableCurrentState (buildCurrentState snap tracked)) kv.1).map
          (fun ps => ps.map (·.name)) :=
      dictGet_map_value _ _ _
    have hself : dictGet (stableCurrentState (buildCurrentState snap tracked)) kv.1
        = some kv.2 := dictGet_of_mem_nodup _ _ _ hnd hkv
    unfold dictGetD
    rw [hget, hself]
    exact listSetEq_refl _
  have hpresent : ∀ k ∈ dictKeys ((stableCurrentState (buildCurrentState snap
      tracked)).map (fun kv => (kv.1, kv.2.map (·.name)))),
      (dictGet (stableCurrentState (buildCurrentState snap tracked)) k).isSome
        = true := by
    intro k hk
    rw [dictKeys_map_value] at hk
    exact isSome_dictGet_of_mem_keys _ k hk
  rw [tick_events_eq]
  dsimp only
  rw [upsertPhase_no_change _ _ active2 e2 s2 hcond]
  dsimp only
  rw [removePhase_all_present _ _ active2 d2 hpresent]
  rfl

/-! ### Claim C4 -/

/-- C4: a ServerKey present in both the previous and current state with
set-equal player sets gets no Upsert and no Remove this tick; and a second
tick on an identical snapshot emits no events at all. -/
theorem unchanged_key_no_op (st : TickState) (snap : Snapshot)
    (tracked : List String) (e e2 : String → SinkRes)
    (s s2 : String → Option Nat) (d d2 : String → SinkRes) (k : String)
    (prevNames : List String) (players : List PlayerEntry)
    (hprev : dictGet st.prev k = some prevNames)
    (hcur : dictGet (stableCurrentState (buildCurrentState snap tracked)) k
      = some players)
    (heq : listSetEq (players.map (·.name)) prevNames = true) :
    (∀ ns, Event.upsert k ns ∉ (tick st (some snap) tracked e s d).2) ∧
    Event.removeOp k ∉ (tick st (some snap) tracked e s d).2 ∧
    (tick (tick st (some snap) tracked e s d).1 (some snap) tracked e2 s2 d2).2
      = [] := by
  have hgetD : dictGetD st.prev k [] = prevNames := by
    unfold dictGetD
    rw [hprev]
    rfl
  refine ⟨?_, ?_, ?_⟩
  · intro ns hns
    rw [tick_events_eq] at hns
    rcases List.mem_append.mp hns with h1 | hrem
    · rcases List.mem_append.mp h1 with hpurge | hup
      · by_cases hc : st.cleanupDone <;> simp [hc] at hpurge
      · rcases upsertPhase_events_shape _ _ _ _ _ _ hup with
          ⟨k2, ps2, hm, hevv, hne⟩ | hsink
        · rw [Event.upsert.injEq] at hevv
          obtain ⟨hk2, _⟩ := hevv
          subst hk2
          have hps : dictGet (stableCurrentState (buildCurrentState snap
              tracked)) k = some ps2 :=
            dictGet_of_mem_nodup _ _ _ (stableCurrentState_nodupKeys _) hm
          rw [hcur] at hps
          injection hps with hps
          subst hps
          rw [hgetD, heq] at hne
          exact absurd hne (by simp)
        · simp [isSinkEv] at hsink
    · rcases removePhase_events_shape _ _ _ _ _ hrem with ⟨k2, hevv, _⟩ | hsink
      · simp at hevv
      · simp [isSinkEv] at hsink
  · intro hns
    rw [tick_events_eq] at hns
    rcases List.mem_append.mp hns with h1 | hrem
    · rcases List.mem_append.mp h1 with hpurge | hup
      · by_cases hc : st.cleanupDone <;> simp [hc] at hpurge
      · rcases upsertPhase_events_shape _ _ _ _ _ _ hup with
          ⟨k2, ps2, _, hevv, _⟩ | hsink
        · simp at hevv
        · simp [isSinkEv] at hsink
    · rcases removePhase_events_shape _ _ _ _ _ hrem with
        ⟨k2, hevv, hnone⟩ | hsink
      · rw [Event.removeOp.injEq] at hevv
        subst hevv
        rw [hcur] at hnone
        exact absurd hnone (by simp)
      · simp [isSinkEv] at hsink
  · rw [tick_state_eq]
    exact tick_after_commit_empty snap tracked _ e2 s2 d2

/-- Witness for C4: Alice stays on her server; the second tick of the
identical snapshot emits nothing. -/
theorem unchanged_key_no_op_witness :
    (∀ ns, Event.upsert "1.2.3.4:8303" ns
      ∉ (tick ⟨[("1.2.3.4:8303", ["Alice"])], [("1.2.3.4:8303", 1)], true⟩
          (some snapAlice) ["Alice"] (fun _ => SinkRes.ok) (fun _ => some 1)
          (fun _ => SinkRes.ok)).2) ∧
    Event.removeOp "1.2.3.4:8303"
      ∉ (tick ⟨[("1.2.3.4:8303", ["Alice"])], [("1.2.3.4:8303", 1)], true⟩
          (some snapAlice) ["Alice"] (fun _ => SinkRes.ok) (fun _ => some 1)
          (fun _ => SinkRes.ok)).2 ∧
    (tick (tick ⟨[("1.2.3.4:8303", ["Alice"])], [("1.2.3.4:8303", 1)], true⟩
          (some snapAlice) ["Alice"] (fun _ => SinkRes.ok) (fun _ => some 1)
          (fun _ => SinkRes.ok)).1
        (some snapAlice) ["Alice"] (fun _ => SinkRes.ok) (fun _ => some 1)
        (fun _ => SinkRes.ok)).2 = [] :=
  unchanged_key_no_op ⟨[("1.2.3.4:8303", ["Alice"])], [("1.2.3.4:8303", 1)], true⟩
    snapAlice ["Alice"] (fun _ => SinkRes.ok) (fun _ => SinkRes.ok)
    (fun _ => some 1) (fun _ => some 1) (fun _ => SinkRes.ok)
    (fun _ => SinkRes.ok) "1.2.3.4:8303" ["Alice"]
    [⟨"Alice", ⟨"Alice", "default", 0⟩, ⟨["1.2.3.4:8303"],
      [⟨"Alice", "default", 0⟩]⟩⟩]
    (by decide) (by decide) (by decide)

/-! ### Claim C7 -/

theorem purge_not_mem_upsertPhase (cur : List (String × List PlayerEntry))
    (prev : List (String × List String)) (active : List (String × Nat))
    (e : String → SinkRes) (s : String → Option Nat) :
    Event.purge ∉ (upsertPhase cur prev active e s).2 := by
  intro h
  rcases upsertPhase_events_shape _ _ _ _ _ _ h with ⟨k, ps, _, hevv, _⟩ | hsink
  · simp at hevv
  · simp [isSinkEv] at hsink

theorem purge_not_mem_removePhase (prevKeys : List String)
    (cur : List (String × List PlayerEntry)) (active : List (String × Nat))
    (d : String → SinkRes) :
    Event.purge ∉ (removePhase prevKeys cur active d).2 := by
  intro h
  rcases removePhase_events_shape _ _ _ _ _ h with ⟨k, hevv, _⟩ | hsink
  · simp at hevv
  · simp [isSinkEv] at hsink

theorem tick_done_no_purge (st : TickState) (hdone : st.cleanupDone = true)
    (f : Option Snapshot) (tracked : List String) (e : String → SinkRes)
    (s : String → Option Nat) (d : String → SinkRes) :
    Event.purge ∉ (tick st f tracked e s d).2 := by
  cases f with
  | none => exact List.not_mem_nil _
  | some snap =>
    have hevs : (tick st (some snap) tracked e s d).2
        = (upsertPhase (stableCurrentState (buildCurrentState snap tracked))
            st.prev st.active e s).2
          ++ (removePhase (dictKeys st.prev)
              (stableCurrentState (buildCurrentState snap tracked))
              (upsertPhase (stableCurrentState (buildCurrentState snap tracked))
                st.prev st.active e s).1 d).2 := by
      rw [tick_events_eq, hdone]
      rfl
    rw [hevs]
    intro h
    rcases List.mem_append.mp h with h1 | h2
    · exact purge_not_mem_upsertPhase _ _ _ _ _ h1
    · exact purge_not_mem_removePhase _ _ _ _ h2

theorem tick_preserves_done (st : TickState) (f : Option Snapshot)
    (tracked : List String) (e : String → SinkRes) (s : String → Option Nat)
    (d : String → SinkRes) (hdone : st.cleanupDone = true) :
    (tick st f tracked e s d).1.cleanupDone = true := by
  cases f with
  | none => exact hdone
  | some snap => rfl

theorem runTicks_done_no_purge :
    ∀ (fs : List (Option Snapshot)) (st : TickState) (tracked : List String)
      (e : String → SinkRes) (s : String → Option Nat) (d : String → SinkRes),
      st.cleanupDone = true →
      ∀ evs ∈ (runTicks st tracked e s d fs).2, Event.purge ∉ evs
  | [], _, _, _, _, _, _, _, hevs => absurd hevs (List.not_mem_nil _)
  | f :: fs, st, tracked, e, s, d, hdone, evs, hevs => by
    rcases List.mem_cons.mp hevs with heq | htail
    · rw [heq]
      exact tick_done_no_purge st hdone f tracked e s d
    · exact runTicks_done_no_purge fs (tick st f tracked e s d).1 tracked e s d
        (tick_preserves_done st f tracked e s d hdone) evs htail

/-- C7: starting a run with the startup purge pending, the purge happens
exactly at the head of the first successful tick's events — before any
operation of that tick — and never occurs again on any later tick. -/
theorem startup_purge_once :
    ∀ (fs : List (Option Snapshot)) (prev : List (String × List String))
      (active : List (String × Nat)) (tracked : List String)
      (e : String → SinkRes) (s : String → Option Nat) (d : String → SinkRes),
      purgeOnce fs (runTicks ⟨prev, active, false⟩ tracked e s d fs).2
  | [], _, _, _, _, _, _ => trivial
  | none :: fs, prev, active, tracked, e, s, d =>
    ⟨rfl, startup_purge_once fs prev active tracked e s d⟩
  | some snap :: fs, prev, active, tracked, e, s, d =>
    ⟨rfl, fun evs2 hevs2 =>
      runTicks_done_no_purge fs
        (tick ⟨prev, active, false⟩ (some snap) tracked e s d).1 tracked e s d
        rfl evs2 hevs2⟩

/-! ### Claim C1 -/

/-- C1 (evaluating the code at the failing input): with the sink failing
both edit and send, the tick still commits the newly observed player set
into `previous_server_state` and stores no message binding; the identical
next tick therefore emits nothing — the failed Upsert is NOT retried,
contrary to the claim. -/
theorem failed_send_still_commits :
    (tick ⟨[], [], true⟩ (some snapAlice) ["Alice"]
        (fun _ => SinkRes.err) (fun _ => none) (fun _ => SinkRes.ok)).2
      = [Event.upsert "1.2.3.4:8303" ["Alice"],
         Event.sinkSend "1.2.3.4:8303" none] ∧
    (tick ⟨[], [], true⟩ (some snapAlice) ["Alice"]
        (fun _ => SinkRes.err) (fun _ => none) (fun _ => SinkRes.ok)).1
      = ⟨[("1.2.3.4:8303", ["Alice"])], [], true⟩ ∧
    (tick (tick ⟨[], [], true⟩ (some snapAlice) ["Alice"]
          (fun _ => SinkRes.err) (fun _ => none) (fun _ => SinkRes.ok)).1
        (some snapAlice) ["Alice"]
        (fun _ => SinkRes.err) (fun _ => none) (fun _ => SinkRes.ok)).2
      = [] := by decide

